import Mathlib

/-!
A shallow embedding of the Circle scheduler core (`src/lib/sched/scheduler.cpp`)
and the syscall dispatcher (`src/lib/syscallhandler.cpp`), with theorems that
settle the specification claims about them.

Modelling conventions:
* machine `unsigned` values are `Nat` reduced modulo `2 ^ 32` at the points
  where the C code can overflow (tick arithmetic);
* heap task objects are identified by a `Nat` task id; a store
  `Nat → CTask` plays the role of the heap, and pointer equality in the C
  code becomes equality of task ids;
* `assert` failures and `LogPanic` calls halt the system, so fallible
  operations return `Except Unit`, with `.error ()` standing for the halt;
* external callbacks (task-switch handler, task-termination handler, logger,
  `memcpy`, the architecture context-switch primitive under `Yield`) do not
  modify scheduler state in the model; where code running during a `Yield`
  can modify the wait lists and the task store, it is passed explicitly as an
  environment function.
-/

set_option maxRecDepth 8000

/-- 2^32, the modulus of the 32-bit unsigned arithmetic used by the code. -/
def U32 : Nat := 4294967296

/-- Task states, mirroring `TTaskState` (the values dispatched on by
`CScheduler::GetNextTask`). -/
inductive TTaskState where
  | TaskStateNew
  | TaskStateReady
  | TaskStateBlocked
  | TaskStateBlockedWithTimeout
  | TaskStateSleeping
  | TaskStateTerminated
  deriving DecidableEq, Repr

/-- One task control block (`CTask`).  `pcIsTaskEntry` models the test
`(void *)(pRegs->pc) == (void *)(&CTask::TaskEntry)` and `runIsBaseRun`
models the vtable test `p1 == p2` (the virtual `Run` dispatching to the base
`CTask::Run`); together they make up the "partially initialized" check in
`GetNextTask`.  `regs` stands for the contents of the opaque
`TTaskRegisters` frame, and `waitListNext` is the intrusive
`m_pWaitListNext` link (a task id, or `none` for the null pointer). -/
structure CTask where
  state : TTaskState
  wakeTicks : Nat
  suspended : Bool
  pcIsTaskEntry : Bool
  runIsBaseRun : Bool
  regs : Nat
  waitListNext : Option Nat
  deriving DecidableEq, Repr

/-- Heap update: write task record `t` at task id `tid`. -/
def updT (store : Nat → CTask) (tid : Nat) (t : CTask) : Nat → CTask :=
  fun x => if x = tid then t else store x

/-- A ready task record with all-default fields, used by the concrete
scenarios below. -/
def taskEx : CTask :=
  { state := TTaskState.TaskStateReady, wakeTicks := 0, suspended := false,
    pcIsTaskEntry := false, runIsBaseRun := false, regs := 0, waitListNext := none }

/-- A heap in which every task id maps to the ready task `taskEx`. -/
def storeReadyEx : Nat → CTask := fun _ => taskEx

/-- The test `(int)(wake - now) > 0` from `GetNextTask`: 32-bit unsigned
subtraction reinterpreted as a signed `int`, compared against zero.  True
iff the deadline has not yet been reached. -/
def deadlinePending (wake now : Nat) : Bool :=
  let d := (wake % U32 + (U32 - now % U32)) % U32
  decide (0 < d) && decide (d < 2147483648)

/-- Events emitted by the sleep family: `yielded` records a call of
`CScheduler::Yield` (a context switch). -/
inductive SchedEvent where
  | yielded
  deriving DecidableEq, Repr

/-- `CScheduler::usSleep(nMicroSeconds)`.  `tpu` is `CLOCKHZ / 1000000`
(ticks per microsecond), `now` the value of `CTimer::GetClockTicks` at the
call, `yieldEnv` the effect on the task store of everything that runs while
this task is switched out, and `cur` the id of `m_pCurrent`.  The asserts
(`m_pCurrent->GetState() == TaskStateReady` before the yield and after it)
become `.error ()` on failure.  Returns the final store together with the
list of emitted events. -/
def usSleep (tpu now : Nat) (yieldEnv : (Nat → CTask) → (Nat → CTask))
    (cur : Nat) (nMicroSeconds : Nat) (store : Nat → CTask) :
    Except Unit ((Nat → CTask) × List SchedEvent) :=
  if nMicroSeconds > 0 then
    let nTicks := (nMicroSeconds * tpu) % U32
    if (store cur).state = TTaskState.TaskStateReady then
      let store₁ := updT store cur { store cur with wakeTicks := (now + nTicks) % U32 }
      let store₂ := updT store₁ cur { store₁ cur with state := TTaskState.TaskStateSleeping }
      let store₃ := yieldEnv store₂
      if (store₃ cur).state = TTaskState.TaskStateReady then .ok (store₃, [SchedEvent.yielded])
      else .error ()
    else .error ()
  else .ok (store, [])

/-- `CScheduler::MsSleep(nMilliSeconds)`: forwards to `usSleep` with
`nMilliSeconds * 1000` (32-bit unsigned multiply) when positive. -/
def MsSleep (tpu now : Nat) (yieldEnv : (Nat → CTask) → (Nat → CTask))
    (cur : Nat) (nMilliSeconds : Nat) (store : Nat → CTask) :
    Except Unit ((Nat → CTask) × List SchedEvent) :=
  if nMilliSeconds > 0 then
    usSleep tpu now yieldEnv cur ((nMilliSeconds * 1000) % U32) store
  else .ok (store, [])

/-- The `while (nSeconds > nSleepMax)` loop of `CScheduler::Sleep`, with
`nSleepMax = 1800`: each iteration calls `usSleep(1800 * 1000000)` and
subtracts 1800 from `nSeconds`; after the loop, `usSleep(nSeconds * 1000000)`
runs for the remainder.  `fuel` bounds the number of iterations; since every
iteration removes 1800 from `nSeconds`, any `fuel ≥ nSeconds` reproduces the
loop exactly (the fuel-exhausted arm is unreachable then). -/
def SleepGo (tpu now : Nat) (yieldEnv : (Nat → CTask) → (Nat → CTask))
    (cur : Nat) : Nat → Nat → (Nat → CTask) →
    Except Unit ((Nat → CTask) × List SchedEvent)
  | 0, nSeconds, store => usSleep tpu now yieldEnv cur ((nSeconds * 1000000) % U32) store
  | fuel + 1, nSeconds, store =>
    if nSeconds > 1800 then
      match usSleep tpu now yieldEnv cur ((1800 * 1000000) % U32) store with
      | .error e => .error e
      | .ok (store₁, evs) =>
        match SleepGo tpu now yieldEnv cur fuel (nSeconds - 1800) store₁ with
        | .error e => .error e
        | .ok (store₂, evs₂) => .ok (store₂, evs ++ evs₂)
    else usSleep tpu now yieldEnv cur ((nSeconds * 1000000) % U32) store

/-- `CScheduler::Sleep(nSeconds)`: chunks the interval into pieces of at
most 1800 seconds to keep the tick arithmetic inside the signed range. -/
def Sleep (tpu now : Nat) (yieldEnv : (Nat → CTask) → (Nat → CTask))
    (cur : Nat) (nSeconds : Nat) (store : Nat → CTask) :
    Except Unit ((Nat → CTask) × List SchedEvent) :=
  SleepGo tpu now yieldEnv cur nSeconds nSeconds store

/-- The scheduler state (`CScheduler` members plus the file-global
`should_contextswith_on_irq_return` flag).  `mTask` is the task-pointer
array (`m_pTask`) as a function from slot index to optional task id —
indices at and beyond `maxTasks` are never written by the embedded code;
`crit` is the interrupt-mask nesting level manipulated by
`EnterCritical(1)` / `LeaveCritical()`. -/
structure CScheduler where
  maxTasks : Nat
  mTask : Nat → Option Nat
  mnTasks : Nat
  mnCurrent : Nat
  mpCurrent : Nat
  store : Nat → CTask
  miSuspendNewTasks : Nat
  crit : Nat
  shouldSwitch : Bool

/-- Scheduler-state heap update at one task id. -/
def updStore (s : CScheduler) (tid : Nat) (t : CTask) : CScheduler :=
  { s with store := updT s.store tid t }

/-- The precondition scan at the top of `GetNextTask`: some slot in
`[m_nTasks, MAX_TASKS)` is non-null ("a removed task is actually not
removed"), which is a `LogPanic`. -/
def hasLeak (s : CScheduler) : Bool :=
  (List.range s.maxTasks).any (fun i => decide (s.mnTasks ≤ i) && (s.mTask i).isSome)

/-- The reap loop of `GetNextTask` over the slot indices `[0, m_nTasks)`:
a null slot increments `removed_count`; a slot holding a `Terminated` task
other than the current one is nulled (the task object is destroyed, the
termination handler — an external callback without effect on scheduler
state — is invoked) and also increments `removed_count`; a `Terminated`
current task and every other task are left in place.  Returns the updated
slot array and `removed_count`. -/
def reapGo (cur : Nat) (store : Nat → CTask) : List Nat → (Nat → Option Nat) →
    (Nat → Option Nat) × Nat
  | [], slots => (slots, 0)
  | i :: rest, slots =>
    match slots i with
    | none =>
      let r := reapGo cur store rest slots
      (r.1, r.2 + 1)
    | some tid =>
      if (store tid).state = TTaskState.TaskStateTerminated then
        if tid = cur then reapGo cur store rest slots
        else
          let r := reapGo cur store rest (fun j => if j = i then none else slots j)
          (r.1, r.2 + 1)
      else reapGo cur store rest slots

/-- The compaction loop of `GetNextTask` over slot indices `[0, m_nTasks)`,
carrying the array, `task_count` and `m_nCurrent`: each non-null slot `i` is
moved to position `task_count` (and slot `i` nulled when it actually
moved); when `i == m_nCurrent` the current index follows the move;
`task_count` advances.  Returns the final array, `task_count` (the new
`m_nTasks`) and the new `m_nCurrent`. -/
def compactGo : List Nat → (Nat → Option Nat) → Nat → Nat →
    (Nat → Option Nat) × Nat × Nat
  | [], slots, tc, nCur => (slots, tc, nCur)
  | i :: rest, slots, tc, nCur =>
    match slots i with
    | none => compactGo rest slots tc nCur
    | some tid =>
      let slots₁ : Nat → Option Nat := fun j => if j = tc then some tid else slots j
      let slots₂ : Nat → Option Nat :=
        if tc ≠ i then (fun j => if j = i then none else slots₁ j) else slots₁
      let nCur₁ := if i = nCur then tc else nCur
      compactGo rest slots₂ (tc + 1) nCur₁

/-- The candidate-advance step `if (++nTask >= m_nTasks) nTask = 0;` of the
selection loop. -/
def wrapNext (n i : Nat) : Nat := if i + 1 ≥ n then 0 else i + 1

/-- The "partially initialized" test of `GetNextTask`: the saved program
counter still points at the task-entry trampoline and the virtual `Run`
dispatches to the base `CTask::Run`. -/
def partiallyInit (t : CTask) : Bool := t.pcIsTaskEntry && t.runIsBaseRun

/-- The selection loop of `GetNextTask` (`for i = 1 .. m_nTasks`), with
`rem` the number of remaining iterations and `nTask0` the previous
candidate position.  Null slots, partially initialized tasks, suspended
tasks, `Blocked` and `New` tasks and tasks with a pending deadline are
skipped; a `Ready` task or an expired `BlockedWithTimeout` / `Sleeping`
task is returned (after its transition to `Ready`, with `wake_ticks`
cleared only in the timeout case).  A `Terminated` task that is not the
current task trips `assert(0)`.  When the iterations are exhausted the
code calls `LeaveCritical()` and returns the sentinel `MAX_TASKS`. -/
def selectLoop (now : Nat) : Nat → Nat → CScheduler → Except Unit (CScheduler × Nat)
  | 0, _, s => .ok ({ s with crit := s.crit - 1 }, s.maxTasks)
  | rem + 1, nTask0, s =>
    let nTask := wrapNext s.mnTasks nTask0
    match s.mTask nTask with
    | none => selectLoop now rem nTask s
    | some tid =>
      let t := s.store tid
      if partiallyInit t then selectLoop now rem nTask s
      else if t.suspended then selectLoop now rem nTask s
      else
        match t.state with
        | TTaskState.TaskStateReady => .ok (s, nTask)
        | TTaskState.TaskStateBlocked => selectLoop now rem nTask s
        | TTaskState.TaskStateNew => selectLoop now rem nTask s
        | TTaskState.TaskStateBlockedWithTimeout =>
          if deadlinePending t.wakeTicks now then selectLoop now rem nTask s
          else .ok (updStore s tid
            { t with state := TTaskState.TaskStateReady, wakeTicks := 0 }, nTask)
        | TTaskState.TaskStateSleeping =>
          if deadlinePending t.wakeTicks now then selectLoop now rem nTask s
          else .ok (updStore s tid { t with state := TTaskState.TaskStateReady }, nTask)
        | TTaskState.TaskStateTerminated =>
          if tid = s.mpCurrent then selectLoop now rem nTask s
          else .error ()

/-- `CScheduler::GetNextTask()`: `EnterCritical(1)`; panic on a leaked slot
above `m_nTasks`; reap terminated tasks; compact the array when
`removed_count >= m_nTasks / 2`; then run the round-robin selection loop
starting after `m_nCurrent` (`nTask = m_nCurrent < MAX_TASKS ? m_nCurrent :
0`), with `now` the clock tick value read once before the loop. -/
def GetNextTask (now : Nat) (s₀ : CScheduler) : Except Unit (CScheduler × Nat) :=
  let s := { s₀ with crit := s₀.crit + 1 }
  if hasLeak s then .error ()
  else
    let r := reapGo s.mpCurrent s.store (List.range s.mnTasks) s.mTask
    let s₁ := { s with mTask := r.1 }
    let s₂ : CScheduler :=
      if r.2 ≥ s₁.mnTasks / 2 then
        let c := compactGo (List.range s₁.mnTasks) s₁.mTask 0 s₁.mnCurrent
        { s₁ with mTask := c.1, mnTasks := c.2.1, mnCurrent := c.2.2 }
      else s₁
    let start := if s₂.mnCurrent < s₂.maxTasks then s₂.mnCurrent else 0
    selectLoop now s₂.mnTasks start s₂

/-- Projection of `GetNextTask`: the returned index (selected slot or the
sentinel `MAX_TASKS`). -/
def gntIdx (now : Nat) (s : CScheduler) : Option Nat :=
  match GetNextTask now s with
  | .ok (_, k) => some k
  | .error _ => none

/-- Projection of `GetNextTask`: the interrupt-mask nesting level on
return. -/
def gntCrit (now : Nat) (s : CScheduler) : Option Nat :=
  match GetNextTask now s with
  | .ok (s', _) => some s'.crit
  | .error _ => none

/-- Projection of `GetNextTask`: the value of `m_nTasks` on return. -/
def gntNTasks (now : Nat) (s : CScheduler) : Option Nat :=
  match GetNextTask now s with
  | .ok (s', _) => some s'.mnTasks
  | .error _ => none

/-- The compaction loop increases `task_count` by at most one per visited
slot. -/
theorem compactGo_tc_le : ∀ (l : List Nat) (slots : Nat → Option Nat) (tc nCur : Nat),
    (compactGo l slots tc nCur).2.1 ≤ tc + l.length := by
  intro l
  induction l with
  | nil => intro slots tc nCur; simp [compactGo]
  | cons i rest ih =>
    intro slots tc nCur
    rw [compactGo]
    cases h : slots i with
    | none =>
      calc (compactGo rest slots tc nCur).2.1 ≤ tc + rest.length := ih slots tc nCur
        _ ≤ tc + (i :: rest).length := by simp
    | some tid =>
      refine le_trans (ih _ (tc + 1) _) ?_
      simp only [List.length_cons]
      omega

/-- The selection loop either returns the sentinel `s.maxTasks` after one
`LeaveCritical` (mask level drops by one) or returns a selected slot index
below `m_nTasks` with the mask level untouched. -/
theorem selectLoop_crit (now : Nat) : ∀ (rem nTask0 : Nat) (s s' : CScheduler) (k : Nat),
    rem ≤ s.mnTasks → selectLoop now rem nTask0 s = .ok (s', k) →
    (k = s.maxTasks ∧ s'.crit = s.crit - 1) ∨ (k < s.mnTasks ∧ s'.crit = s.crit) := by
  intro rem
  induction rem with
  | zero =>
    intro nTask0 s s' k _ h
    simp only [selectLoop, Except.ok.injEq, Prod.mk.injEq] at h
    obtain ⟨hs, hk⟩ := h
    exact Or.inl ⟨hk.symm, by rw [← hs]⟩
  | succ rem ih =>
    intro nTask0 s s' k hrem h
    have hn : 0 < s.mnTasks := lt_of_lt_of_le (Nat.succ_pos rem) hrem
    have hrem' : rem ≤ s.mnTasks := le_trans (Nat.le_succ rem) hrem
    have hlt : wrapNext s.mnTasks nTask0 < s.mnTasks := by
      rw [wrapNext]; split <;> omega
    simp only [selectLoop] at h
    cases hslot : s.mTask (wrapNext s.mnTasks nTask0) with
    | none =>
      simp only [hslot] at h
      exact ih _ s s' k hrem' h
    | some tid =>
      simp only [hslot] at h
      by_cases hpi : partiallyInit (s.store tid) = true
      · rw [if_pos hpi] at h
        exact ih _ s s' k hrem' h
      · rw [if_neg hpi] at h
        by_cases hsu : (s.store tid).suspended = true
        · rw [if_pos hsu] at h
          exact ih _ s s' k hrem' h
        · rw [if_neg hsu] at h
          cases hst : (s.store tid).state
          · simp only [hst] at h
            exact ih _ s s' k hrem' h
          · simp only [hst, Except.ok.injEq, Prod.mk.injEq] at h
            obtain ⟨hs, hk⟩ := h
            exact Or.inr ⟨hk ▸ hlt, by rw [← hs]⟩
          · simp only [hst] at h
            exact ih _ s s' k hrem' h
          · simp only [hst] at h
            by_cases hdl : deadlinePending (s.store tid).wakeTicks now = true
            · rw [if_pos hdl] at h
              exact ih _ s s' k hrem' h
            · rw [if_neg hdl] at h
              simp only [Except.ok.injEq, Prod.mk.injEq] at h
              obtain ⟨hs, hk⟩ := h
              exact Or.inr ⟨hk ▸ hlt, by rw [← hs]; rfl⟩
          · simp only [hst] at h
            by_cases hdl : deadlinePending (s.store tid).wakeTicks now = true
            · rw [if_pos hdl] at h
              exact ih _ s s' k hrem' h
            · rw [if_neg hdl] at h
              simp only [Except.ok.injEq, Prod.mk.injEq] at h
              obtain ⟨hs, hk⟩ := h
              exact Or.inr ⟨hk ▸ hlt, by rw [← hs]; rfl⟩
          · simp only [hst] at h
            by_cases hcu : tid = s.mpCurrent
            · rw [if_pos hcu] at h
              exact ih _ s s' k hrem' h
            · rw [if_neg hcu] at h
              exact absurd h (by simp)

/-- A concrete scheduler with two ready tasks in slots 0 and 1, task 0
current, mask level 0. -/
def schedTwoReady : CScheduler :=
  { maxTasks := 4,
    mTask := fun i => if i = 0 then some 0 else if i = 1 then some 1 else none,
    mnTasks := 2, mnCurrent := 0, mpCurrent := 0,
    store := fun _ => taskEx, miSuspendNewTasks := 0, crit := 0,
    shouldSwitch := false }

/-- Like `schedTwoReady` but with `m_nCurrent = 1`, so selection returns
slot 0. -/
def schedTwoReadyB : CScheduler := { schedTwoReady with mnCurrent := 1 }

/-- Whether the selection loop would stop at slot `i`: the slot is
occupied, the task is not partially initialized, not suspended, and either
`Ready` or (`BlockedWithTimeout` / `Sleeping`) with an expired deadline.
Null slots, partially initialized tasks, suspended tasks, `Blocked` and
`New` tasks and tasks with pending deadlines are exactly the skipped
candidates. -/
def selectable (now : Nat) (s : CScheduler) (i : Nat) : Bool :=
  match s.mTask i with
  | none => false
  | some tid =>
    let t := s.store tid
    !partiallyInit t && !t.suspended &&
      (match t.state with
       | TTaskState.TaskStateReady => true
       | TTaskState.TaskStateBlockedWithTimeout => !deadlinePending t.wakeTicks now
       | TTaskState.TaskStateSleeping => !deadlinePending t.wakeTicks now
       | _ => false)

/-- No slot of `tasks[0..n_tasks)` holds a `Terminated` task other than the
current one (the state the reap step establishes before selection runs). -/
def noStrayTerminated (s : CScheduler) : Bool :=
  (List.range s.mnTasks).all (fun i =>
    match s.mTask i with
    | none => true
    | some tid =>
      !(decide ((s.store tid).state = TTaskState.TaskStateTerminated)) ||
        decide (tid = s.mpCurrent))

/-- One iteration of the selection loop on a selectable candidate stops and
returns that candidate's index. -/
theorem selectLoop_hit (now rem nTask0 : Nat) (s : CScheduler)
    (hsel : selectable now s (wrapNext s.mnTasks nTask0) = true) :
    ∃ s', selectLoop now (rem + 1) nTask0 s = .ok (s', wrapNext s.mnTasks nTask0) := by
  cases hslot : s.mTask (wrapNext s.mnTasks nTask0) with
  | none =>
    simp only [selectable, hslot] at hsel
    exact Bool.noConfusion hsel
  | some tid =>
    simp only [selectable, hslot, Bool.and_eq_true, Bool.not_eq_true'] at hsel
    obtain ⟨⟨hpi, hsu⟩, hst⟩ := hsel
    cases hstate : (s.store tid).state
    · rw [hstate] at hst; simp at hst
    · refine ⟨s, ?_⟩
      simp only [selectLoop, hslot]
      rw [if_neg (by simp [hpi]), if_neg (by simp [hsu])]
      simp [hstate]
    · rw [hstate] at hst; simp at hst
    · rw [hstate] at hst
      simp only [Bool.not_eq_true'] at hst
      refine ⟨updStore s tid
        { s.store tid with state := TTaskState.TaskStateReady, wakeTicks := 0 }, ?_⟩
      simp only [selectLoop, hslot]
      rw [if_neg (by simp [hpi]), if_neg (by simp [hsu])]
      simp [hstate, hst]
    · rw [hstate] at hst
      simp only [Bool.not_eq_true'] at hst
      refine ⟨updStore s tid { s.store tid with state := TTaskState.TaskStateReady }, ?_⟩
      simp only [selectLoop, hslot]
      rw [if_neg (by simp [hpi]), if_neg (by simp [hsu])]
      simp [hstate, hst]
    · rw [hstate] at hst; simp at hst

/-- One iteration of the selection loop on a non-selectable candidate (in a
table with no stray terminated task) just advances to the next position. -/
theorem selectLoop_skip (now rem nTask0 : Nat) (s : CScheduler)
    (hlt : wrapNext s.mnTasks nTask0 < s.mnTasks)
    (hstray : noStrayTerminated s = true)
    (hsel : selectable now s (wrapNext s.mnTasks nTask0) = false) :
    selectLoop now (rem + 1) nTask0 s =
      selectLoop now rem (wrapNext s.mnTasks nTask0) s := by
  cases hslot : s.mTask (wrapNext s.mnTasks nTask0) with
  | none => simp only [selectLoop, hslot]
  | some tid =>
    simp only [selectable, hslot] at hsel
    simp only [selectLoop, hslot]
    by_cases hpi : partiallyInit (s.store tid) = true
    · rw [if_pos hpi]
    · rw [if_neg hpi]
      by_cases hsu : (s.store tid).suspended = true
      · rw [if_pos hsu]
      · rw [if_neg hsu]
        have hpi' : partiallyInit (s.store tid) = false := Bool.eq_false_iff.mpr hpi
        have hsu' : (s.store tid).suspended = false := Bool.eq_false_iff.mpr hsu
        simp only [hpi', hsu', Bool.not_false, Bool.true_and] at hsel
        cases hstate : (s.store tid).state
        · simp [hstate]
        · rw [hstate] at hsel; simp at hsel
        · simp [hstate]
        · rw [hstate] at hsel
          have hd : deadlinePending (s.store tid).wakeTicks now = true := by
            simpa using hsel
          simp [hstate, hd]
        · rw [hstate] at hsel
          have hd : deadlinePending (s.store tid).wakeTicks now = true := by
            simpa using hsel
          simp [hstate, hd]
        · have hmem := List.all_eq_true.mp hstray (wrapNext s.mnTasks nTask0)
            (List.mem_range.mpr hlt)
          simp only [hslot, hstate] at hmem
          have hcur : tid = s.mpCurrent := by simpa using hmem
          simp [hstate, hcur]

/-- The selection loop visits the candidate positions
`(nTask0 + 1 + j) % m_nTasks` for `j = 0, 1, …` in order: it returns the
first selectable one (having mutated only that task), and when none of the
`rem` candidates is selectable it performs `LeaveCritical` and returns the
sentinel `MAX_TASKS`. -/
theorem selectLoop_round_robin (now : Nat) : ∀ (rem nTask0 : Nat) (s : CScheduler),
    rem ≤ s.mnTasks → nTask0 < s.mnTasks → noStrayTerminated s = true →
    (∀ i, ((List.range rem).map (fun j => (nTask0 + 1 + j) % s.mnTasks)).find?
        (fun c => selectable now s c) = some i →
      ∃ s', selectLoop now rem nTask0 s = .ok (s', i)) ∧
    (((List.range rem).map (fun j => (nTask0 + 1 + j) % s.mnTasks)).find?
        (fun c => selectable now s c) = none →
      selectLoop now rem nTask0 s = .ok ({ s with crit := s.crit - 1 }, s.maxTasks)) := by
  intro rem
  induction rem with
  | zero =>
    intro nTask0 s _ _ _
    constructor
    · intro i hi; simp at hi
    · intro _; rfl
  | succ rem ih =>
    intro nTask0 s hrem hn0 hstray
    have hn : 0 < s.mnTasks := lt_of_le_of_lt (Nat.zero_le _) hn0
    have hrem' : rem ≤ s.mnTasks := le_trans (Nat.le_succ rem) hrem
    have hwrap : wrapNext s.mnTasks nTask0 = (nTask0 + 1) % s.mnTasks := by
      by_cases hge : nTask0 + 1 ≥ s.mnTasks
      · rw [wrapNext, if_pos hge]
        have he : nTask0 + 1 = s.mnTasks := by omega
        rw [he, Nat.mod_self]
      · rw [wrapNext, if_neg hge, Nat.mod_eq_of_lt (by omega)]
    have hwlt : wrapNext s.mnTasks nTask0 < s.mnTasks := by
      rw [hwrap]; exact Nat.mod_lt _ hn
    have hlist : (List.range (rem + 1)).map (fun j => (nTask0 + 1 + j) % s.mnTasks) =
        wrapNext s.mnTasks nTask0 ::
          (List.range rem).map
            (fun j => (wrapNext s.mnTasks nTask0 + 1 + j) % s.mnTasks) := by
      rw [List.range_succ_eq_map, List.map_cons, List.map_map]
      congr 1
      · rw [hwrap]
      · refine List.map_congr_left ?_
        intro a _
        show (nTask0 + 1 + (a + 1)) % s.mnTasks =
          (wrapNext s.mnTasks nTask0 + 1 + a) % s.mnTasks
        rw [hwrap]
        have h1 : (nTask0 + 1) % s.mnTasks + 1 + a =
            (nTask0 + 1) % s.mnTasks + (1 + a) := by omega
        rw [h1, Nat.mod_add_mod]
        congr 1
        omega
    by_cases hselb : selectable now s (wrapNext s.mnTasks nTask0) = true
    · constructor
      · intro i hi
        rw [hlist, List.find?_cons_of_pos _ hselb] at hi
        obtain rfl : wrapNext s.mnTasks nTask0 = i := by simpa using hi
        exact selectLoop_hit now rem nTask0 s hselb
      · intro hnone
        rw [hlist, List.find?_cons_of_pos _ hselb] at hnone
        simp at hnone
    · have hself : selectable now s (wrapNext s.mnTasks nTask0) = false :=
        Bool.eq_false_iff.mpr hselb
      have hskip := selectLoop_skip now rem nTask0 s hwlt hstray hself
      obtain ⟨ih1, ih2⟩ := ih (wrapNext s.mnTasks nTask0) s hrem' hwlt hstray
      constructor
      · intro i hi
        rw [hlist, List.find?_cons_of_neg _ (by simp [hself])] at hi
        rw [hskip]
        exact ih1 i hi
      · intro hnone
        rw [hlist, List.find?_cons_of_neg _ (by simp [hself])] at hnone
        rw [hskip]
        exact ih2 hnone

/-- C4: the selection step of `GetNextTask` examines candidate slots in
strict round-robin order starting at `current_index + 1`, wrapping within
the occupied prefix (`(m_nCurrent + 1 + j) % m_nTasks` for
`j = 0 … m_nTasks − 1`); null slots, partially initialized tasks, suspended
tasks, `Blocked` tasks, `New` tasks and tasks with unexpired deadlines are
not selectable and are skipped (encoded in `selectable`); the first
selectable candidate's index is returned, and if none is selectable the
sentinel `MAX_TASKS` is returned.  The hypotheses state that the current
index lies in the occupied prefix and that the preceding reap step left no
stray terminated task. -/
theorem getNextTask_round_robin (now : Nat) (s : CScheduler)
    (hcur : s.mnCurrent < s.mnTasks) (hterm : noStrayTerminated s = true) :
    (∀ i, ((List.range s.mnTasks).map (fun j => (s.mnCurrent + 1 + j) % s.mnTasks)).find?
        (fun c => selectable now s c) = some i →
      ∃ s', selectLoop now s.mnTasks s.mnCurrent s = .ok (s', i)) ∧
    (((List.range s.mnTasks).map (fun j => (s.mnCurrent + 1 + j) % s.mnTasks)).find?
        (fun c => selectable now s c) = none →
      selectLoop now s.mnTasks s.mnCurrent s =
        .ok ({ s with crit := s.crit - 1 }, s.maxTasks)) :=
  selectLoop_round_robin now s.mnTasks s.mnCurrent s (le_refl _) hcur hterm

/-- C4 witness: on the concrete two-ready-task scheduler the first
round-robin candidate after the current slot 0 is slot 1, which is
selectable, and the loop returns index 1. -/
theorem getNextTask_round_robin_witness :
    ∃ s', selectLoop 0 schedTwoReady.mnTasks schedTwoReady.mnCurrent schedTwoReady =
      .ok (s', 1) :=
  (getNextTask_round_robin 0 schedTwoReady (by decide) (by decide)).1 1 (by decide)

/-- C5: when the selection loop reaches a candidate slot holding a fully
initialized, non-suspended task in `BlockedWithTimeout` or `Sleeping` whose
deadline has passed (the signed difference `wake_ticks − now` is not
positive), it transitions that task to `Ready` — setting `wake_ticks := 0`
in the `BlockedWithTimeout` case and leaving `wake_ticks` unchanged in the
`Sleeping` case — and returns that slot's index. -/
theorem selectLoop_expired_wakes (now rem nTask0 : Nat) (s : CScheduler) (tid : Nat)
    (hslot : s.mTask (wrapNext s.mnTasks nTask0) = some tid)
    (hpi : partiallyInit (s.store tid) = false)
    (hsu : (s.store tid).suspended = false)
    (hdl : deadlinePending (s.store tid).wakeTicks now = false)
    (hst : (s.store tid).state = TTaskState.TaskStateBlockedWithTimeout ∨
      (s.store tid).state = TTaskState.TaskStateSleeping) :
    selectLoop now (rem + 1) nTask0 s =
      .ok (updStore s tid
        { s.store tid with
          state := TTaskState.TaskStateReady,
          wakeTicks :=
            if (s.store tid).state = TTaskState.TaskStateBlockedWithTimeout then 0
            else (s.store tid).wakeTicks },
        wrapNext s.mnTasks nTask0) := by
  rcases hst with hst | hst
  · simp only [selectLoop, hslot]
    rw [if_neg (by simp [hpi]), if_neg (by simp [hsu])]
    simp [hst, hdl]
  · simp only [selectLoop, hslot]
    rw [if_neg (by simp [hpi]), if_neg (by simp [hsu])]
    simp [hst, hdl]

/-- A scheduler whose slot 1 holds a `BlockedWithTimeout` task with
`wake_ticks = 50`. -/
def schedExpiredEx : CScheduler :=
  { maxTasks := 4,
    mTask := fun i => if i = 0 then some 0 else if i = 1 then some 1 else none,
    mnTasks := 2, mnCurrent := 0, mpCurrent := 0,
    store := fun x =>
      if x = 1 then
        { taskEx with state := TTaskState.TaskStateBlockedWithTimeout, wakeTicks := 50 }
      else taskEx,
    miSuspendNewTasks := 0, crit := 0, shouldSwitch := false }

/-- C5 witness: at tick 100 the timeout of the task in slot 1 (deadline 50)
has expired, so the loop wakes it with `wake_ticks := 0` and returns 1. -/
theorem selectLoop_expired_wakes_witness :
    selectLoop 100 2 0 schedExpiredEx =
      .ok (updStore schedExpiredEx 1
        { schedExpiredEx.store 1 with
          state := TTaskState.TaskStateReady,
          wakeTicks :=
            if (schedExpiredEx.store 1).state = TTaskState.TaskStateBlockedWithTimeout then 0
            else (schedExpiredEx.store 1).wakeTicks }, 1) :=
  selectLoop_expired_wakes 100 1 0 schedExpiredEx 1 (by decide) (by decide) (by decide)
    (by decide) (Or.inl (by decide))

/-- C2 counterexample: a two-task scheduler in which `GetNextTask` returns
the selected index 1 with the interrupt-mask nesting level at 1, one higher
than the 0 it started from: the selected-index return paths skip
`LeaveCritical`. -/
theorem getNextTask_select_skips_leaveCritical :
    gntIdx 0 schedTwoReady = some 1 ∧ gntCrit 0 schedTwoReady = some 1 ∧
    schedTwoReady.crit = 0 := by decide

/-- C2 amended: an execution of `GetNextTask` that returns the sentinel
`MAX_TASKS` executes `LeaveCritical` exactly once after the initial
`EnterCritical(1)`, so its return mask level equals the entry level; an
execution that returns a selected index returns without any
`LeaveCritical`, leaving the mask level one above the entry level. -/
theorem getNextTask_ok_crit_cases (now : Nat) (s s' : CScheduler) (k : Nat)
    (h : s.mnTasks ≤ s.maxTasks) (hg : GetNextTask now s = .ok (s', k)) :
    (k = s.maxTasks ∧ s'.crit = s.crit) ∨ (k < s.maxTasks ∧ s'.crit = s.crit + 1) := by
  simp only [GetNextTask] at hg
  split at hg
  · exact absurd hg (by simp)
  · split at hg
    case isTrue hc =>
      have hle : (compactGo (List.range s.mnTasks)
          (reapGo s.mpCurrent s.store (List.range s.mnTasks) s.mTask).1 0 s.mnCurrent).2.1
          ≤ s.mnTasks := by
        have := compactGo_tc_le (List.range s.mnTasks)
          (reapGo s.mpCurrent s.store (List.range s.mnTasks) s.mTask).1 0 s.mnCurrent
        simpa using this
      have hsel := selectLoop_crit now _ _ _ s' k (le_refl _) hg
      rcases hsel with ⟨hk, hcrit⟩ | ⟨hk, hcrit⟩
      · left
        refine ⟨by simpa using hk, ?_⟩
        rw [hcrit]; simp
      · right
        simp only at hk hcrit
        exact ⟨by omega, by rw [hcrit]⟩
    case isFalse hc =>
      have hsel := selectLoop_crit now _ _ _ s' k (le_refl _) hg
      rcases hsel with ⟨hk, hcrit⟩ | ⟨hk, hcrit⟩
      · left
        refine ⟨by simpa using hk, ?_⟩
        rw [hcrit]; simp
      · right
        simp only at hk hcrit
        exact ⟨by omega, by rw [hcrit]⟩

theorem getNextTask_critical_level (now : Nat) (s : CScheduler)
    (h : s.mnTasks ≤ s.maxTasks) :
    (gntIdx now s = some s.maxTasks → gntCrit now s = some s.crit) ∧
    (∀ k, gntIdx now s = some k → k ≠ s.maxTasks → gntCrit now s = some (s.crit + 1)) := by
  unfold gntIdx gntCrit
  cases hg : GetNextTask now s with
  | error e => simp
  | ok p =>
    obtain ⟨s', k⟩ := p
    rcases getNextTask_ok_crit_cases now s s' k h hg with ⟨hk, hcrit⟩ | ⟨hk, hcrit⟩
    · constructor
      · intro _; simp [hcrit]
      · intro k' hk' hne
        exact absurd (by simpa [hk] using hk'.symm) hne
    · constructor
      · intro habs
        simp only [Option.some.injEq] at habs
        omega
      · intro k' _ _
        simp [hcrit]

/-- C2 witness (for the amended theorem): on the concrete two-task
scheduler the selected-index branch applies and reports mask level
`crit + 1 = 1`. -/
theorem getNextTask_critical_level_witness :
    gntCrit 0 schedTwoReadyB = some (schedTwoReadyB.crit + 1) :=
  (getNextTask_critical_level 0 schedTwoReadyB (by decide)).2 0 (by decide) (by decide)

/-- The number of slots of `tasks[0..n_tasks)` that are already null when
`GetNextTask` starts — slots that the reap step of this pass does not
touch but that the source's `removed_count` nevertheless counts. -/
def preNullCount (s : CScheduler) : Nat :=
  (List.range s.mnTasks).countP (fun i => (s.mTask i).isNone)

/-- The number of slots of `tasks[0..n_tasks)` holding a `Terminated` task
other than the current one — the slots the reap step of this pass actually
destroys and nulls. -/
def reapedCount (s : CScheduler) : Nat :=
  (List.range s.mnTasks).countP (fun i =>
    match s.mTask i with
    | none => false
    | some tid =>
      decide ((s.store tid).state = TTaskState.TaskStateTerminated) && !(decide (tid = s.mpCurrent)))

/-- Over a duplicate-free index list, the reap loop's `removed_count` is
the number of already-null slots plus the number of slots it reaps. -/
theorem reapGo_removed (cur : Nat) (store : Nat → CTask) :
    ∀ (l : List Nat), l.Nodup → ∀ (slots : Nat → Option Nat),
    (reapGo cur store l slots).2 =
      l.countP (fun i => (slots i).isNone) +
      l.countP (fun i =>
        match slots i with
        | none => false
        | some tid =>
          decide ((store tid).state = TTaskState.TaskStateTerminated) && !(decide (tid = cur))) := by
  intro l
  induction l with
  | nil => intro _ slots; simp [reapGo]
  | cons i rest ih =>
    intro hnd slots
    have hrest : rest.Nodup := (List.nodup_cons.mp hnd).2
    have hni : i ∉ rest := (List.nodup_cons.mp hnd).1
    cases hslot : slots i with
    | none =>
      rw [reapGo]
      simp only [hslot, List.countP_cons, Option.isNone_none, ih hrest slots]
      simp
      omega
    | some tid =>
      rw [reapGo]
      simp only [hslot]
      by_cases hterm : (store tid).state = TTaskState.TaskStateTerminated
      · by_cases hcur : tid = cur
        · rw [if_pos hterm, if_pos hcur]
          rw [ih hrest slots]
          simp [List.countP_cons, hslot, hcur]
        · rw [if_pos hterm, if_neg hcur]
          have hcong₁ : rest.countP (fun j => ((fun j => if j = i then none else slots j) j).isNone) =
              rest.countP (fun j => (slots j).isNone) := by
            refine List.countP_congr ?_
            intro a ha
            have : a ≠ i := fun h => hni (h ▸ ha)
            simp [this]
          have hcong₂ : rest.countP (fun j =>
              match (fun j => if j = i then none else slots j) j with
              | none => false
              | some tid =>
                decide ((store tid).state = TTaskState.TaskStateTerminated) && !(decide (tid = cur))) =
              rest.countP (fun j =>
              match slots j with
              | none => false
              | some tid =>
                decide ((store tid).state = TTaskState.TaskStateTerminated) && !(decide (tid = cur))) := by
            refine List.countP_congr ?_
            intro a ha
            have : a ≠ i := fun h => hni (h ▸ ha)
            simp [this]
          simp only [ih hrest (fun j => if j = i then none else slots j), hcong₁, hcong₂]
          simp [List.countP_cons, hslot, hterm, hcur]
          omega
      · rw [if_neg hterm]
        rw [ih hrest slots]
        simp [List.countP_cons, hslot, hterm]

/-- C3 amended: the counter that `GetNextTask` compares against
`m_nTasks / 2` to decide whether to compact is not the number of slots the
reap step removed, but that number plus the number of pre-existing null
slots in `tasks[0..n_tasks)` — so compaction runs iff
`preNullCount + reapedCount ≥ n_tasks / 2`. -/
theorem getNextTask_compaction_trigger (s : CScheduler) :
    (reapGo s.mpCurrent s.store (List.range s.mnTasks) s.mTask).2 =
      preNullCount s + reapedCount s ∧
    ((reapGo s.mpCurrent s.store (List.range s.mnTasks) s.mTask).2 ≥ s.mnTasks / 2 ↔
      preNullCount s + reapedCount s ≥ s.mnTasks / 2) := by
  have h := reapGo_removed s.mpCurrent s.store (List.range s.mnTasks)
    (List.nodup_range s.mnTasks) s.mTask
  exact ⟨h, by rw [h]; exact Iff.rfl⟩

/-- A scheduler with a pre-existing hole: slot 0 is null, slot 1 holds the
ready current task 0; nothing is reapable. -/
def schedHoleEx : CScheduler :=
  { maxTasks := 4,
    mTask := fun i => if i = 1 then some 0 else none,
    mnTasks := 2, mnCurrent := 1, mpCurrent := 0,
    store := fun _ => taskEx, miSuspendNewTasks := 0, crit := 0,
    shouldSwitch := false }

/-- C3 counterexample: in `schedHoleEx` the reap step removes nothing
(`reapedCount = 0 < n_tasks / 2 = 1`), yet the pass compacts the array —
`m_nTasks` drops from 2 to 1 — because the pre-existing null slot is
counted by `removed_count`. -/
theorem getNextTask_compacts_without_reaping :
    reapedCount schedHoleEx = 0 ∧ schedHoleEx.mnTasks = 2 ∧
    ¬(reapedCount schedHoleEx ≥ schedHoleEx.mnTasks / 2) ∧
    gntNTasks 0 schedHoleEx = some 1 := by decide

/-- The first-free-slot scan of `AddTask`
(`for i in [0, m_nTasks): if (m_pTask[i] == 0) …`), scanning `rem` slots
starting at index `i`. -/
def firstFreeGo (slots : Nat → Option Nat) : Nat → Nat → Option Nat
  | _, 0 => none
  | i, rem + 1 => if slots i = none then some i else firstFreeGo slots (i + 1) rem

/-- `CScheduler::AddTask(pTask)`: when `m_iSuspendNewTasks` is non-zero the
task's state is first forced to `New`; then the task is stored in the first
null slot of `tasks[0..m_nTasks)` if any, else appended at `m_nTasks++`;
if `m_nTasks >= MAX_TASKS` at that point the scheduler logs a fatal panic
(`.error ()`) instead.  `tid` is the id of the inserted heap task. -/
def AddTask (tid : Nat) (t : CTask) (s : CScheduler) : Except Unit CScheduler :=
  let t₁ := if s.miSuspendNewTasks ≠ 0 then { t with state := TTaskState.TaskStateNew } else t
  match firstFreeGo s.mTask 0 s.mnTasks with
  | some i =>
    .ok { s with mTask := fun j => if j = i then some tid else s.mTask j,
                 store := updT s.store tid t₁ }
  | none =>
    if s.mnTasks ≥ s.maxTasks then .error ()
    else
      .ok { s with mTask := fun j => if j = s.mnTasks then some tid else s.mTask j,
                   mnTasks := s.mnTasks + 1,
                   store := updT s.store tid t₁ }

/-- The slot scan finds exactly the first null slot. -/
theorem firstFreeGo_eq_some (slots : Nat → Option Nat) :
    ∀ (rem b k : Nat), b ≤ k → k < b + rem → slots k = none →
    (∀ j, b ≤ j → j < k → slots j ≠ none) → firstFreeGo slots b rem = some k := by
  intro rem
  induction rem with
  | zero => intro b k h1 h2 _ _; omega
  | succ rem ih =>
    intro b k h1 h2 hk hbefore
    by_cases hb : slots b = none
    · have hbk : b = k := by
        by_contra hne
        exact hbefore b (le_refl b) (by omega) hb
      rw [firstFreeGo, if_pos hb, hbk]
    · rw [firstFreeGo, if_neg hb]
      have hbk : b ≠ k := fun h => hb (h ▸ hk)
      exact ih (b + 1) k (by omega) (by omega) hk (fun j hj1 hj2 => hbefore j (by omega) hj2)

/-- When every scanned slot is occupied the scan returns `none`. -/
theorem firstFreeGo_eq_none (slots : Nat → Option Nat) :
    ∀ (rem b : Nat), (∀ j, b ≤ j → j < b + rem → slots j ≠ none) →
    firstFreeGo slots b rem = none := by
  intro rem
  induction rem with
  | zero => intro b _; rfl
  | succ rem ih =>
    intro b hfull
    rw [firstFreeGo, if_neg (hfull b (le_refl b) (by omega))]
    exact ih (b + 1) (fun j hj1 hj2 => hfull j (by omega) (by omega))

/-- C7: `AddTask(t)` stores `t` in the first null slot of
`tasks[0..n_tasks)` if one exists (leaving `n_tasks` and all other slots
unchanged); otherwise it appends at index `n_tasks` and increments
`n_tasks`; if instead `n_tasks` has already reached `MAX_TASKS` it panics
without inserting; and the stored task's state is forced to `New` exactly
when `suspend_new_tasks > 0` at the time of the call, otherwise left as the
caller set it. -/
theorem addTask_insertion (tid : Nat) (t : CTask) (s : CScheduler) :
    (∀ i, i < s.mnTasks → s.mTask i = none → (∀ j, j < i → s.mTask j ≠ none) →
      ∃ s', AddTask tid t s = .ok s' ∧ s'.mTask i = some tid ∧
        s'.mnTasks = s.mnTasks ∧ (∀ j, j ≠ i → s'.mTask j = s.mTask j) ∧
        s'.store tid = { t with state :=
          if 0 < s.miSuspendNewTasks then TTaskState.TaskStateNew else t.state }) ∧
    ((∀ j, j < s.mnTasks → s.mTask j ≠ none) → s.mnTasks < s.maxTasks →
      ∃ s', AddTask tid t s = .ok s' ∧ s'.mTask s.mnTasks = some tid ∧
        s'.mnTasks = s.mnTasks + 1 ∧ (∀ j, j ≠ s.mnTasks → s'.mTask j = s.mTask j) ∧
        s'.store tid = { t with state :=
          if 0 < s.miSuspendNewTasks then TTaskState.TaskStateNew else t.state }) ∧
    ((∀ j, j < s.mnTasks → s.mTask j ≠ none) → s.maxTasks ≤ s.mnTasks →
      AddTask tid t s = .error ()) := by
  have hstate : (if s.miSuspendNewTasks ≠ 0 then
      { t with state := TTaskState.TaskStateNew } else t) =
      { t with state :=
        if 0 < s.miSuspendNewTasks then TTaskState.TaskStateNew else t.state } := by
    by_cases hz : s.miSuspendNewTasks = 0
    · rw [if_neg (by omega), if_neg (by omega)]
    · rw [if_pos hz, if_pos (by omega)]
  refine ⟨?_, ?_, ?_⟩
  · intro i hi hnull hbefore
    have hff : firstFreeGo s.mTask 0 s.mnTasks = some i :=
      firstFreeGo_eq_some s.mTask s.mnTasks 0 i (Nat.zero_le i) (by omega) hnull
        (fun j _ hj2 => hbefore j hj2)
    have heq : AddTask tid t s = .ok { s with
        mTask := fun j => if j = i then some tid else s.mTask j,
        store := updT s.store tid (if s.miSuspendNewTasks ≠ 0 then
          { t with state := TTaskState.TaskStateNew } else t) } := by
      rw [AddTask]
      simp only [hff]
    refine ⟨_, heq, by simp, rfl, ?_, ?_⟩
    · intro j hj
      simp [hj]
    · show updT s.store tid _ tid = _
      simp only [updT, if_pos rfl]
      exact hstate
  · intro hfull hlt
    have hff : firstFreeGo s.mTask 0 s.mnTasks = none :=
      firstFreeGo_eq_none s.mTask s.mnTasks 0 (fun j _ hj2 => hfull j (by omega))
    have heq : AddTask tid t s = .ok { s with
        mTask := fun j => if j = s.mnTasks then some tid else s.mTask j,
        mnTasks := s.mnTasks + 1,
        store := updT s.store tid (if s.miSuspendNewTasks ≠ 0 then
          { t with state := TTaskState.TaskStateNew } else t) } := by
      rw [AddTask]
      simp only [hff]
      rw [if_neg (by omega)]
    refine ⟨_, heq, by simp, rfl, ?_, ?_⟩
    · intro j hj
      simp [hj]
    · show updT s.store tid _ tid = _
      simp only [updT, if_pos rfl]
      exact hstate
  · intro hfull hge
    have hff : firstFreeGo s.mTask 0 s.mnTasks = none :=
      firstFreeGo_eq_none s.mTask s.mnTasks 0 (fun j _ hj2 => hfull j (by omega))
    rw [AddTask]
    simp only [hff]
    rw [if_pos (by omega)]

/-- C7 witness: inserting heap task 5 into `schedHoleEx` (slot 0 null)
stores it in slot 0 and leaves `n_tasks` at 2 with its state untouched. -/
theorem addTask_insertion_witness :
    ∃ s', AddTask 5 taskEx schedHoleEx = .ok s' ∧ s'.mTask 0 = some 5 ∧
      s'.mnTasks = schedHoleEx.mnTasks ∧
      (∀ j, j ≠ 0 → s'.mTask j = schedHoleEx.mTask j) ∧
      s'.store 5 = { taskEx with state :=
        if 0 < schedHoleEx.miSuspendNewTasks then TTaskState.TaskStateNew
        else taskEx.state } :=
  (addTask_insertion 5 taskEx schedHoleEx).1 0 (by decide) (by decide)
    (fun j hj => absurd hj (Nat.not_lt_zero j))

/-- The selection loop never changes which task is current
(`m_pCurrent`). -/
theorem selectLoop_mpCurrent (now : Nat) : ∀ (rem nTask0 : Nat) (s s' : CScheduler) (k : Nat),
    selectLoop now rem nTask0 s = .ok (s', k) → s'.mpCurrent = s.mpCurrent := by
  intro rem
  induction rem with
  | zero =>
    intro nTask0 s s' k h
    simp only [selectLoop, Except.ok.injEq, Prod.mk.injEq] at h
    rw [← h.1]
  | succ rem ih =>
    intro nTask0 s s' k h
    simp only [selectLoop] at h
    cases hslot : s.mTask (wrapNext s.mnTasks nTask0) with
    | none =>
      simp only [hslot] at h
      exact ih _ s s' k h
    | some tid =>
      simp only [hslot] at h
      by_cases hpi : partiallyInit (s.store tid) = true
      · rw [if_pos hpi] at h
        exact ih _ s s' k h
      · rw [if_neg hpi] at h
        by_cases hsu : (s.store tid).suspended = true
        · rw [if_pos hsu] at h
          exact ih _ s s' k h
        · rw [if_neg hsu] at h
          cases hst : (s.store tid).state
          · simp only [hst] at h
            exact ih _ s s' k h
          · simp only [hst, Except.ok.injEq, Prod.mk.injEq] at h
            rw [← h.1]
          · simp only [hst] at h
            exact ih _ s s' k h
          · simp only [hst] at h
            by_cases hdl : deadlinePending (s.store tid).wakeTicks now = true
            · rw [if_pos hdl] at h
              exact ih _ s s' k h
            · rw [if_neg hdl] at h
              simp only [Except.ok.injEq, Prod.mk.injEq] at h
              rw [← h.1]; rfl
          · simp only [hst] at h
            by_cases hdl : deadlinePending (s.store tid).wakeTicks now = true
            · rw [if_pos hdl] at h
              exact ih _ s s' k h
            · rw [if_neg hdl] at h
              simp only [Except.ok.injEq, Prod.mk.injEq] at h
              rw [← h.1]; rfl
          · simp only [hst] at h
            by_cases hcu : tid = s.mpCurrent
            · rw [if_pos hcu] at h
              exact ih _ s s' k h
            · rw [if_neg hcu] at h
              exact absurd h (by simp)

/-- `GetNextTask` never changes which task is current (`m_pCurrent`). -/
theorem getNextTask_mpCurrent (now : Nat) (s s' : CScheduler) (k : Nat)
    (hg : GetNextTask now s = .ok (s', k)) : s'.mpCurrent = s.mpCurrent := by
  simp only [GetNextTask] at hg
  split at hg
  · exact absurd hg (by simp)
  · split at hg
    · have h2 := selectLoop_mpCurrent now _ _ _ s' k hg
      simpa using h2
    · have h2 := selectLoop_mpCurrent now _ _ _ s' k hg
      simpa using h2

/-- `ContextSwitchOnIrqReturn_by_modifyingTaskContextSavedByIrqStub(regs)`:
clears the global should-switch flag, loops `GetNextTask` (assigning
`m_nCurrent` each time) until the result is not `MAX_TASKS`, asserting
`m_nTasks > 0` after every failed attempt (`fuel` bounds the retries of
this while loop); asserts the selected index is below `MAX_TASKS` and its
slot non-null.  If the selected task is the current task it returns with
the IRQ-saved frame untouched; otherwise it copies the saved frame into the
outgoing task's `regs`, updates `m_pCurrent` (firing the task-switch
handler, an external callback with no effect on scheduler state), and
overwrites the saved frame with the incoming task's `regs`.  The returned
`Nat` is the frame contents the IRQ epilogue will restore. -/
def ContextSwitchOnIrqReturn (now : Nat) : Nat → Nat → CScheduler →
    Except Unit (CScheduler × Nat)
  | 0, _, _ => .error ()
  | fuel + 1, frame, s₀ =>
    let s := { s₀ with shouldSwitch := false }
    match GetNextTask now s with
    | .error e => .error e
    | .ok (s₁, k) =>
      let s₂ : CScheduler := { s₁ with mnCurrent := k }
      if k = s₂.maxTasks then
        if 0 < s₂.mnTasks then ContextSwitchOnIrqReturn now fuel frame s₂ else .error ()
      else
        if k < s₂.maxTasks then
          match s₂.mTask k with
          | none => .error ()
          | some nextId =>
            if s₂.mpCurrent = nextId then .ok (s₂, frame)
            else
              let oldId := s₂.mpCurrent
              let s₃ : CScheduler := { s₂ with mpCurrent := nextId }
              let s₄ := updStore s₃ oldId { s₃.store oldId with regs := frame }
              .ok (s₄, (s₄.store nextId).regs)
        else .error ()

/-- The task id in the slot selected by the `GetNextTask` call made inside
the preemptive context switch (after the flag clear), when selection
succeeds with a valid index. -/
def nextSelSlot (now : Nat) (s₀ : CScheduler) : Option Nat :=
  match GetNextTask now { s₀ with shouldSwitch := false } with
  | .ok (s₁, k) => if k < s₁.maxTasks then s₁.mTask k else none
  | .error _ => none

/-- The task record at id `tid` right after the context switch's
`GetNextTask` call. -/
def gntStoreAt (now : Nat) (s₀ : CScheduler) (tid : Nat) : Option CTask :=
  match GetNextTask now { s₀ with shouldSwitch := false } with
  | .ok (s₁, _) => some (s₁.store tid)
  | .error _ => none

/-- Projection of the context switch: the final `m_pCurrent`. -/
def cswCurrent (now fuel frame : Nat) (s₀ : CScheduler) : Option Nat :=
  match ContextSwitchOnIrqReturn now fuel frame s₀ with
  | .ok (s', _) => some s'.mpCurrent
  | .error _ => none

/-- Projection of the context switch: the final IRQ-saved frame contents. -/
def cswFrame (now fuel frame : Nat) (s₀ : CScheduler) : Option Nat :=
  match ContextSwitchOnIrqReturn now fuel frame s₀ with
  | .ok (_, f) => some f
  | .error _ => none

/-- Projection of the context switch: the final task record at id `tid`. -/
def cswTaskAt (now fuel frame : Nat) (s₀ : CScheduler) (tid : Nat) : Option CTask :=
  match ContextSwitchOnIrqReturn now fuel frame s₀ with
  | .ok (s', _) => some (s'.store tid)
  | .error _ => none

/-- C9: in the preemptive path, when the `GetNextTask` call selects the
slot of task `nextId`: if that task is the current task, the routine
returns with the IRQ-saved frame and the current-task designation
unchanged; otherwise it copies the IRQ-saved frame into the outgoing task's
`regs`, makes `nextId` current, and overwrites the IRQ-saved frame with the
incoming task's `regs` (as left by the selection pass), so the IRQ epilogue
returns into the selected task. -/
theorem contextSwitch_irq (now fuel frame : Nat) (s₀ : CScheduler) (nextId : Nat)
    (hsel : nextSelSlot now s₀ = some nextId) :
    (nextId = s₀.mpCurrent →
      cswCurrent now (fuel + 1) frame s₀ = some s₀.mpCurrent ∧
      cswFrame now (fuel + 1) frame s₀ = some frame) ∧
    (nextId ≠ s₀.mpCurrent →
      cswCurrent now (fuel + 1) frame s₀ = some nextId ∧
      cswTaskAt now (fuel + 1) frame s₀ s₀.mpCurrent =
        (gntStoreAt now s₀ s₀.mpCurrent).map (fun tk => { tk with regs := frame }) ∧
      cswFrame now (fuel + 1) frame s₀ =
        (gntStoreAt now s₀ nextId).map (fun tk => tk.regs)) := by
  unfold nextSelSlot at hsel
  unfold cswCurrent cswFrame cswTaskAt gntStoreAt
  cases hg : GetNextTask now { s₀ with shouldSwitch := false } with
  | error e => rw [hg] at hsel; simp at hsel
  | ok p =>
    obtain ⟨s₁, k⟩ := p
    rw [hg] at hsel
    simp only [] at hsel
    by_cases hk : k < s₁.maxTasks
    · rw [if_pos hk] at hsel
      have hcur : s₁.mpCurrent = s₀.mpCurrent :=
        getNextTask_mpCurrent now { s₀ with shouldSwitch := false } s₁ k hg
      have hstep : ContextSwitchOnIrqReturn now (fuel + 1) frame s₀ =
          (if s₁.mpCurrent = nextId then
            .ok (({ s₁ with mnCurrent := k } : CScheduler), frame)
          else
            .ok (updStore { s₁ with mnCurrent := k, mpCurrent := nextId } s₁.mpCurrent
              { s₁.store s₁.mpCurrent with regs := frame },
              ((updStore { s₁ with mnCurrent := k, mpCurrent := nextId } s₁.mpCurrent
                { s₁.store s₁.mpCurrent with regs := frame }).store nextId).regs)) := by
        simp only [ContextSwitchOnIrqReturn, hg]
        rw [if_neg (show ¬(k = s₁.maxTasks) by omega)]
        rw [if_pos hk]
        simp only [hsel]
      constructor
      · intro heq
        rw [hstep, if_pos (show s₁.mpCurrent = nextId by rw [hcur, heq])]
        exact ⟨by simpa using hcur, rfl⟩
      · intro hne
        have hne' : ¬(s₁.mpCurrent = nextId) := by
          rw [hcur]; exact fun h => hne h.symm
        rw [hstep, if_neg hne']
        have hold_ne : ¬(nextId = s₁.mpCurrent) := fun h => hne' h.symm
        refine ⟨by simp [updStore], ?_, ?_⟩
        · simp [updStore, updT, hcur]
        · simp [updStore, updT, hold_ne]
    · rw [if_neg hk] at hsel
      simp at hsel

/-- C9 witness: on `schedTwoReady` (task 0 current, both tasks ready) the
selection picks slot 1, task 1, which is not current; the switch makes
task 1 current, saves the IRQ frame 99 into task 0's `regs`, and loads the
outgoing frame from task 1's `regs`. -/
theorem contextSwitch_irq_witness :
    cswCurrent 0 1 99 schedTwoReady = some 1 ∧
    cswTaskAt 0 1 99 schedTwoReady schedTwoReady.mpCurrent =
      (gntStoreAt 0 schedTwoReady schedTwoReady.mpCurrent).map
        (fun tk => { tk with regs := 99 }) ∧
    cswFrame 0 1 99 schedTwoReady =
      (gntStoreAt 0 schedTwoReady 1).map (fun tk => tk.regs) :=
  (contextSwitch_irq 0 0 99 schedTwoReady 1 (by decide)).2 (by decide)

/-- External effects of the syscall dispatcher that are visible outside the
returned value: the `memcpy` of the task name (case 1), the logger print
(case 2), the scheduler sleep (case 3), the terminate of the current task
(case 4), and the "System call number not recognized" error log (default). -/
inductive SysAction where
  | memcpyTaskName (buf len : Int)
  | printString (p : Int)
  | sleepSeconds (n : Int)
  | terminateCurrent
  | logUnrecognized
  deriving DecidableEq, Repr

/-- `SyscallHandler` from `src/lib/syscallhandler.cpp`.  `syscall_no` is the
value read from register `r7`; `system_time` is the global `int system_time`
counter.  Returns `(val_to_ret, new system_time, emitted actions)`.  Note
the source's `switch` has a `break` only in case 0; cases 1 through 4 fall
through to every later case and then to `default`, so they emit all the
later actions and return `-1`. -/
def SyscallHandler (syscall_no : Int) (arg1 arg2 arg3 arg4 : Int) (system_time : Int) :
    Int × Int × List SysAction :=
  if syscall_no = 0 then
    (system_time, system_time + 1, [])
  else if syscall_no = 1 then
    (-1, system_time,
      [SysAction.memcpyTaskName arg1 arg2, SysAction.printString arg1,
       SysAction.sleepSeconds arg1, SysAction.terminateCurrent, SysAction.logUnrecognized])
  else if syscall_no = 2 then
    (-1, system_time,
      [SysAction.printString arg1, SysAction.sleepSeconds arg1,
       SysAction.terminateCurrent, SysAction.logUnrecognized])
  else if syscall_no = 3 then
    (-1, system_time,
      [SysAction.sleepSeconds arg1, SysAction.terminateCurrent, SysAction.logUnrecognized])
  else if syscall_no = 4 then
    (-1, system_time, [SysAction.terminateCurrent, SysAction.logUnrecognized])
  else
    (-1, system_time, [SysAction.logUnrecognized])

/-- Modelled from the spec (§6, syscall table): the specified behaviour of
syscall 0, "gettime → current time (seconds)": the value the clock source
reports at the moment of the call. -/
def gettimeSpec (clockSeconds : Int) : Int := clockSeconds

/-- The defensive unlink loop at the end of `CScheduler::BlockTask`: walk
the wait list from `head` with a trailing pointer `pPrev`, and whenever the
visited node `p` is the current task, splice it out (`pPrev->m_pWaitListNext
= p->m_pWaitListNext`, or `*ppWaitListHead = p->m_pWaitListNext` when
`pPrev` is null).  `pPrev` is unconditionally advanced to `p` afterwards,
exactly as in the source.  `fuel` bounds the traversal so the model is
total; on any acyclic list a fuel of at least its length reproduces the
loop. -/
def unlinkLoop (cur : Nat) : Nat → Option Nat → Option Nat → Option Nat →
    (Nat → CTask) → Option Nat × (Nat → CTask)
  | 0, _, _, head, store => (head, store)
  | fuel + 1, pPrev, p, head, store =>
    match p with
    | none => (head, store)
    | some pid =>
      let hs :=
        if pid = cur then
          match pPrev with
          | some pr =>
            (head, updT store pr { store pr with waitListNext := (store pid).waitListNext })
          | none => ((store pid).waitListNext, store)
        else (head, store)
      unlinkLoop cur fuel (some pid) ((hs.2 pid).waitListNext) hs.1 hs.2

/-- `CScheduler::BlockTask(ppWaitListHead, nMicroSeconds)`.  The entry
asserts (`m_pWaitListNext == 0`, state `Ready`) become `.error ()`.  The
current task is pushed LIFO onto the wait list; with a zero timeout its
state becomes `Blocked`, otherwise `wake_ticks := now + µs * tpu` (32-bit)
and the state becomes `BlockedWithTimeout`.  `yieldEnv` is everything that
runs during the `Yield` (it may rewrite the wait-list head and the task
store, e.g. a `WakeTasks` or the timeout path of the selector).  After the
yield the task defensively unlinks itself, clears its link, and returns
`m_pCurrent->GetWakeTicks() == 0` — the literal expression of the source's
`bool ret`. -/
def BlockTask (tpu now : Nat)
    (yieldEnv : Option Nat × (Nat → CTask) → Option Nat × (Nat → CTask))
    (unlinkFuel : Nat) (nMicroSeconds : Nat)
    (head : Option Nat) (cur : Nat) (store : Nat → CTask) :
    Except Unit (Option Nat × (Nat → CTask) × Bool) :=
  if (store cur).waitListNext ≠ none then .error ()
  else if (store cur).state ≠ TTaskState.TaskStateReady then .error ()
  else
    let store₁ := updT store cur { store cur with waitListNext := head }
    let head₁ : Option Nat := some cur
    let store₂ :=
      if nMicroSeconds = 0 then
        updT store₁ cur { store₁ cur with state := TTaskState.TaskStateBlocked }
      else
        let nTicks := (nMicroSeconds * tpu) % U32
        let storeW := updT store₁ cur { store₁ cur with wakeTicks := (now + nTicks) % U32 }
        updT storeW cur { storeW cur with state := TTaskState.TaskStateBlockedWithTimeout }
    let we := yieldEnv (head₁, store₂)
    let hs := unlinkLoop cur unlinkFuel none we.1 we.1 we.2
    let store₄ := updT hs.2 cur { hs.2 cur with waitListNext := none }
    .ok (hs.1, store₄, decide ((store₄ cur).wakeTicks = 0))

/-- Projection of `BlockTask`: the returned boolean paired with the
current task's `wake_ticks` at the point of return. -/
def blockTaskRetWake (tpu now : Nat)
    (yieldEnv : Option Nat × (Nat → CTask) → Option Nat × (Nat → CTask))
    (unlinkFuel : Nat) (nMicroSeconds : Nat)
    (head : Option Nat) (cur : Nat) (store : Nat → CTask) : Option (Bool × Nat) :=
  match BlockTask tpu now yieldEnv unlinkFuel nMicroSeconds head cur store with
  | .ok (_, st, ret) => some (ret, (st cur).wakeTicks)
  | .error _ => none

/-- A yield environment behaving like `WakeTasks` on this list: it detaches
the list (head becomes null) and makes task 0 `Ready` with a cleared link,
leaving `wake_ticks` untouched. -/
def wakeEnvEx : Option Nat × (Nat → CTask) → Option Nat × (Nat → CTask) :=
  fun p =>
    (none,
     fun x =>
       if x = 0 then { p.2 0 with state := TTaskState.TaskStateReady, waitListNext := none }
       else p.2 x)

/-- The chain test tying an explicit id list to the intrusive wait list: the
list `ids` is exactly the sequence of nodes reached from `head` through the
`m_pWaitListNext` links, terminated by the null pointer. -/
def isWaitChainB (store : Nat → CTask) : Option Nat → List Nat → Bool
  | none, [] => true
  | none, _ :: _ => false
  | some _, [] => false
  | some h, t :: rest => (h == t) && isWaitChainB store (store t).waitListNext rest

/-- The body of the `while (pTask)` loop of `CScheduler::WakeTasks`, over
the detached list given as the explicit id list `ids` (the link chain of the
head pointer at entry; each step reads the next pointer before clearing it,
so on a duplicate-free chain the traversal is exactly `ids`).  A task whose
state is neither `Blocked` nor `BlockedWithTimeout` is a fatal assert /
`LogPanic` — `.error ()`.  Otherwise the task becomes `Ready` and its link
is cleared; `wake_ticks` is not touched. -/
def wakeLoop (store : Nat → CTask) : List Nat → Except Unit (Nat → CTask)
  | [] => .ok store
  | t :: rest =>
    if (store t).state = TTaskState.TaskStateBlocked ∨
        (store t).state = TTaskState.TaskStateBlockedWithTimeout then
      wakeLoop (updT store t
        { store t with state := TTaskState.TaskStateReady, waitListNext := none }) rest
    else .error ()

/-- `CScheduler::WakeTasks(ppWaitListHead)`: atomically detach the whole
list (`*ppWaitListHead = 0`) and wake every task on it.  Returns the new
head (always null) and the updated heap. -/
def WakeTasks (ids : List Nat) (store : Nat → CTask) :
    Except Unit (Option Nat × (Nat → CTask)) :=
  match wakeLoop store ids with
  | .ok store' => .ok (none, store')
  | .error e => .error e

/-- `wakeLoop` on a duplicate-free list of blocked tasks wakes each of them
exactly once and touches nothing else. -/
theorem wakeLoop_ok (ids : List Nat) : ∀ store : Nat → CTask, ids.Nodup →
    (∀ t ∈ ids, (store t).state = TTaskState.TaskStateBlocked ∨
      (store t).state = TTaskState.TaskStateBlockedWithTimeout) →
    ∃ store', wakeLoop store ids = .ok store' ∧
      (∀ t ∈ ids, store' t =
        { store t with state := TTaskState.TaskStateReady, waitListNext := none }) ∧
      (∀ t, t ∉ ids → store' t = store t) := by
  induction ids with
  | nil => intro store _ _; exact ⟨store, rfl, by simp, fun _ _ => rfl⟩
  | cons t rest ih =>
    intro store hnd hgood
    have ht := hgood t (by simp)
    have hrestnd : rest.Nodup := (List.nodup_cons.mp hnd).2
    have htrest : t ∉ rest := (List.nodup_cons.mp hnd).1
    set store₁ := updT store t
      { store t with state := TTaskState.TaskStateReady, waitListNext := none } with hstore₁
    have hgood₁ : ∀ r ∈ rest, (store₁ r).state = TTaskState.TaskStateBlocked ∨
        (store₁ r).state = TTaskState.TaskStateBlockedWithTimeout := by
      intro r hr
      have hrt : r ≠ t := fun h => htrest (h ▸ hr)
      simpa [hstore₁, updT, hrt] using hgood r (by simp [hr])
    obtain ⟨store', heq, hin, hout⟩ := ih store₁ hrestnd hgood₁
    refine ⟨store', ?_, ?_, ?_⟩
    · simpa [wakeLoop, ht] using heq
    · intro r hr
      rcases List.mem_cons.mp hr with h | h
      · subst h
        rw [hout r htrest]
        simp [hstore₁, updT]
      · rw [hin r h]
        have hrt : r ≠ t := fun hh => htrest (hh ▸ h)
        simp [hstore₁, updT, hrt]
    · intro r hr
      have h₁ : r ∉ rest := fun h => hr (by simp [h])
      have hrt : r ≠ t := fun h => hr (by simp [h])
      rw [hout r h₁]
      simp [hstore₁, updT, hrt]

/-- `wakeLoop` panics whenever some task on the list is in a state other
than `Blocked` / `BlockedWithTimeout`. -/
theorem wakeLoop_bad (ids : List Nat) : ∀ store : Nat → CTask,
    (∃ t ∈ ids, ¬((store t).state = TTaskState.TaskStateBlocked ∨
      (store t).state = TTaskState.TaskStateBlockedWithTimeout)) →
    wakeLoop store ids = .error () := by
  induction ids with
  | nil => intro store h; simp at h
  | cons t rest ih =>
    intro store h
    obtain ⟨b, hb, hbad⟩ := h
    by_cases ht : (store t).state = TTaskState.TaskStateBlocked ∨
        (store t).state = TTaskState.TaskStateBlockedWithTimeout
    · have hbr : b ∈ rest := by
        rcases List.mem_cons.mp hb with h | h
        · exact absurd (h ▸ ht) hbad
        · exact h
      have hbt : b ≠ t := fun h => hbad (h ▸ ht)
      rw [wakeLoop, if_pos ht]
      exact ih _ ⟨b, hbr, by simpa [updT, hbt] using hbad⟩
    · rw [wakeLoop, if_neg ht]

/-- C6: a single `WakeTasks(list)` leaves the list head null and, for every
task that was on the (duplicate-free) wait list, turns its state from
`Blocked` or `BlockedWithTimeout` into `Ready` exactly once and clears its
`wait_list_next` link while leaving `wake_ticks` (and every other field, and
every other task) unmodified; if any task on the list is in another state,
the call is a fatal assert / panic. -/
theorem wakeTasks_broadcast (head : Option Nat) (ids : List Nat) (store : Nat → CTask)
    (hchain : isWaitChainB store head ids = true) (hnodup : ids.Nodup) :
    ((∀ t ∈ ids, (store t).state = TTaskState.TaskStateBlocked ∨
        (store t).state = TTaskState.TaskStateBlockedWithTimeout) →
      ∃ store', WakeTasks ids store = .ok (none, store') ∧
        (∀ t ∈ ids, store' t =
          { store t with state := TTaskState.TaskStateReady, waitListNext := none }) ∧
        (∀ t, t ∉ ids → store' t = store t)) ∧
    ((∃ t ∈ ids, ¬((store t).state = TTaskState.TaskStateBlocked ∨
        (store t).state = TTaskState.TaskStateBlockedWithTimeout)) →
      WakeTasks ids store = .error ()) := by
  constructor
  · intro hgood
    obtain ⟨store', heq, hin, hout⟩ := wakeLoop_ok ids store hnodup hgood
    exact ⟨store', by rw [WakeTasks, heq], hin, hout⟩
  · intro hbad
    rw [WakeTasks, wakeLoop_bad ids store hbad]

/-- A two-task wait list for the C6 witness: task 0 `Blocked`, task 1
`BlockedWithTimeout` with a pending `wake_ticks`, linked 0 → 1 → null. -/
def storeWakeEx : Nat → CTask := fun x =>
  if x = 0 then { taskEx with state := TTaskState.TaskStateBlocked, waitListNext := some 1 }
  else { taskEx with state := TTaskState.TaskStateBlockedWithTimeout, wakeTicks := 77 }

/-- C6 witness: waking the concrete list 0 → 1 succeeds and produces the
promised per-task updates. -/
theorem wakeTasks_broadcast_witness :
    ∃ store', WakeTasks [0, 1] storeWakeEx = .ok (none, store') ∧
      (∀ t ∈ [0, 1], store' t =
        { storeWakeEx t with state := TTaskState.TaskStateReady, waitListNext := none }) ∧
      (∀ t, t ∉ ([0, 1] : List Nat) → store' t = storeWakeEx t) :=
  (wakeTasks_broadcast (some 0) [0, 1] storeWakeEx (by decide) (by decide)).1 (by decide)

/-- C1 (code bug): a task blocks with a 5 µs timeout (`wake_ticks` becomes
15) and is woken by a `WakeTasks`-style signal before the deadline, so its
`wake_ticks` is still 15 ≠ 0 at the point of return — yet `BlockTask`
returns `false`, because the source computes
`bool ret = m_pCurrent->GetWakeTicks() == 0`, the inverse of the documented
"`true` iff signalled" convention. -/
theorem blockTask_signalled_returns_false :
    blockTaskRetWake 1 10 wakeEnvEx 4 5 none 0 storeReadyEx = some (false, 15) ∧
    (15 : Nat) ≠ 0 := by decide

/-- C10: `usSleep(0)`, `MsSleep(0)` and `Sleep(0)` are complete no-ops: no
yield event is emitted (no context switch) and the task store — in
particular the calling task's state and `wake_ticks` — is returned
unchanged. -/
theorem sleep_zero_is_noop (tpu now : Nat) (yieldEnv : (Nat → CTask) → (Nat → CTask))
    (cur : Nat) (store : Nat → CTask) :
    usSleep tpu now yieldEnv cur 0 store = .ok (store, []) ∧
    MsSleep tpu now yieldEnv cur 0 store = .ok (store, []) ∧
    Sleep tpu now yieldEnv cur 0 store = .ok (store, []) := by
  refine ⟨?_, ?_, ?_⟩
  · simp [usSleep]
  · simp [MsSleep]
  · simp [Sleep, SleepGo, usSleep]

/-- C8 counterexample: with the clock source reading 1 second and the
global counter `system_time` at 0, syscall 0 returns 0, not the clock's
time.  The returned value is the counter, independent of the clock. -/
theorem syscall0_ignores_clock :
    (SyscallHandler 0 0 0 0 0 0).1 = 0 ∧ gettimeSpec 1 = 1 ∧
    (SyscallHandler 0 0 0 0 0 0).1 ≠ gettimeSpec 1 := by
  refine ⟨rfl, rfl, by decide⟩

/-- C8 amended: syscall 0 returns the current value of the global counter
`system_time` (the number of earlier gettime calls), increments the counter
by one, and performs no other action; the clock source is not consulted. -/
theorem syscall0_returns_counter (arg1 arg2 arg3 arg4 system_time : Int) :
    SyscallHandler 0 arg1 arg2 arg3 arg4 system_time = (system_time, system_time + 1, []) := by
  rfl
